import Mathlib

/-!
# Verification of the release-automation tool (`main.py`)

Shallow embedding of the release orchestration engine of `main.py`:
the commit classifier (`count_commits_by_type`), the semantic-version
calculator (`generate_new_tag`), the tag accessor (`get_latest_tag`) and
the release state machine (`run_release_proccess`), together with proofs
of the specification claims about them.

Strings are modelled as `List Char`; the Python method `str.lower()` is modelled on
the ASCII range, and the regex `v(\d+)\.(\d+)\.(\d+)` used with `re.match`
(which anchors at the START only, allowing trailing characters) is modelled
by an explicit recursive parser with identical maximal-munch semantics.
HTTP endpoints are modelled as functions supplied by an environment; the
claims under study concern runs in which the transport succeeds, so the
environment always answers at the HTTP level and carries the booleans the
Python functions return (`approve_merge_request`, `merge_mr`, `create_tag`
return `False` on a non-2xx status instead of exiting).
-/

namespace AutoMR

/-- ASCII lowercasing of one character, modelling Python `str.lower()`
on the titles the classifier inspects. -/
def lowerChar (c : Char) : Char :=
  if 'A' ≤ c ∧ c ≤ 'Z' then Char.ofNat (c.toNat + 32) else c

/-- Occurrence of `needle` as a contiguous substring of `hay`,
modelling the Python string test `needle in hay`. -/
def isSubstr (needle : List Char) : List Char → Bool
  | [] => needle.isPrefixOf []
  | c :: t => needle.isPrefixOf (c :: t) || isSubstr needle t

/-- The conventional-commit marker `"feat:"`. -/
def featMarker : List Char := "feat:".data

/-- The test `"feat:" in str(commit["title"]).lower()` used by the classifier. -/
def hasFeat (title : List Char) : Bool :=
  isSubstr featMarker (title.map lowerChar)

/-- The classification result `{"fix": _, "feat": _}` (a `CommitClassification`). -/
structure Counts where
  fix : Nat
  feat : Nat
deriving DecidableEq, Repr

/-- One iteration of the classification loop in `count_commits_by_type`:
a `feat:` title increments `feat` and RESETS `fix` to 1; any other title
increments `fix`. -/
def classifyStep (c : Counts) (title : List Char) : Counts :=
  if hasFeat title then { feat := c.feat + 1, fix := 1 }
  else { c with fix := c.fix + 1 }

/-- The classification loop of `count_commits_by_type` (lines 154-164 of
`main.py`) over a list of commit titles, starting from `{"fix": 0, "feat": 0}`. -/
def count_commits_core (commits : List (List Char)) : Counts :=
  commits.foldl classifyStep { fix := 0, feat := 0 }


/-! ## Version tag parsing and rendering -/

/-- An ASCII decimal digit, modelling `\d` in the tag regex
(the tags under study are ASCII). -/
def isDigitChar (c : Char) : Bool := '0' ≤ c ∧ c ≤ '9'

/-- Numeric value of a digit character. -/
def digitVal (c : Char) : Nat := c.toNat - '0'.toNat

/-- Digit character of a value below 10. -/
def digitChar (n : Nat) : Char := Char.ofNat ('0'.toNat + n)

/-- Consume a maximal run of leading digits, accumulating their value;
returns the value and the unconsumed remainder. -/
def readNatAux : List Char → Nat → Nat × List Char
  | [], acc => (acc, [])
  | c :: cs, acc =>
    if isDigitChar c then readNatAux cs (acc * 10 + digitVal c) else (acc, c :: cs)

/-- Model of `\d+` at the head of the input: requires at least one digit,
then consumes the maximal digit run. -/
def readNat : List Char → Option (Nat × List Char)
  | [] => none
  | c :: cs => if isDigitChar c then some (readNatAux cs (digitVal c)) else none

/-- The tag pattern of `generate_new_tag`:
`re.match(r"v(\d+)\.(\d+)\.(\d+)", last_tag)`. `re.match` anchors only at
the start of the string, so trailing characters after the third integer are
accepted and ignored; since `.` is not a digit, the greedy `\d+`
groups coincide with maximal munch. -/
def parse_vtag : List Char → Option (Nat × Nat × Nat)
  | 'v' :: rest => do
    let (major, r1) ← readNat rest
    match r1 with
    | '.' :: r2 => do
      let (minor, r3) ← readNat r2
      match r3 with
      | '.' :: r4 => do
        let (patch, _) ← readNat r4
        pure (major, minor, patch)
      | _ => none
    | _ => none
  | _ => none

/-- Decimal digits of `n`, most significant first, prepended to `acc`.
Structural recursion on a fuel argument (any fuel `≥ n` yields the full
digit string; `natDigits` supplies `n` itself). -/
def natDigitsAux : Nat → Nat → List Char → List Char
  | _, 0, acc => acc
  | 0, _ + 1, acc => acc
  | fuel + 1, n + 1, acc =>
    natDigitsAux fuel ((n + 1) / 10) (digitChar ((n + 1) % 10) :: acc)

/-- Decimal representation of a natural number, modelling the Python
formatting of a non-negative `int`. -/
def natDigits (n : Nat) : List Char :=
  if n = 0 then ['0'] else natDigitsAux n n []

/-- The produced tag string `f"v{major}.{minor}.{patch}"`. -/
def render_vtag (major minor patch : Nat) : List Char :=
  'v' :: (natDigits major ++ '.' :: (natDigits minor ++ '.' :: natDigits patch))

/-- Embedding of `generate_new_tag` (lines 166-190 of `main.py`).
`none` models the `sys.exit(1)` taken on a malformed tag ("Error: bad
format in tag"). The three version-bump branches mirror the source:
`feat > 0` adds `feat` to minor and, when `fix > 0`, assigns `patch = fix`
absolutely; otherwise `fix > 0` adds `fix` to patch; otherwise `patch = 1`. -/
def generate_new_tag (last_tag : List Char) (commit_counts : Counts) :
    Option (List Char) :=
  match parse_vtag last_tag with
  | none => none
  | some (major, minor, patch) =>
    if commit_counts.feat > 0 then
      some (render_vtag major (minor + commit_counts.feat)
        (if commit_counts.fix > 0 then commit_counts.fix else patch))
    else if commit_counts.fix > 0 then
      some (render_vtag major minor (patch + commit_counts.fix))
    else
      some (render_vtag major minor 1)

/-- Embedding of `get_latest_tag` (lines 113-125 of `main.py`): the name of
the first tag in the tag listing of the repository, or the default `"v0.0.0"` when the
repository has no tags. (The non-200 transport branch exits and is outside
the environments modelled here.) -/
def get_latest_tag (tags : List (List Char)) : List Char :=
  match tags with
  | [] => "v0.0.0".data
  | t :: _ => t


/-! ## Spec-side notions

Definitions written from the words of the specification, used to compare
the behaviour of the code against the spec (refinement claims C4 and C7). -/

/-- All characters of the list are decimal digits. -/
def allDigits (l : List Char) : Bool := l.all isDigitChar

/-- Split a character list on every `'.'` (no '.' appears in any part). -/
def splitDots : List Char → List (List Char)
  | [] => [[]]
  | c :: t =>
    if c = '.' then [] :: splitDots t
    else
      match splitDots t with
      | [] => [[c]]
      | h :: r => (c :: h) :: r

/-- Spec-side: the string is EXACTLY of the form `v<digits>.<digits>.<digits>`
("Parsed from a string matching `v<digits>.<digits>.<digits>`", spec §3):
a leading `'v'` followed by exactly three nonempty all-digit groups
separated by dots, with nothing after the third group. -/
def spec_full_vtag : List Char → Bool
  | [] => false
  | c :: rest =>
    (c == 'v') &&
      match splitDots rest with
      | [d1, d2, d3] =>
        !d1.isEmpty && !d2.isEmpty && !d3.isEmpty &&
          allDigits d1 && allDigits d2 && allDigits d3
      | _ => false

/-- Spec-side: the string STARTS with `v<int>.<int>.<int>`: a leading
`'v'`, then three nonempty all-digit groups separated by dots, followed by
an arbitrary (possibly empty) remainder. This is the acceptance condition
of the start-anchored `re.match`, written from the words of the amended
claim. -/
def spec_prefix_vtag (s : List Char) : Prop :=
  ∃ d1 d2 d3 r : List Char,
    d1 ≠ [] ∧ d2 ≠ [] ∧ d3 ≠ [] ∧
    (∀ ch ∈ d1, isDigitChar ch = true) ∧ (∀ ch ∈ d2, isDigitChar ch = true) ∧
    (∀ ch ∈ d3, isDigitChar ch = true) ∧
    s = 'v' :: (d1 ++ '.' :: (d2 ++ '.' :: (d3 ++ r)))

/-- Spec-side semantic-version order: major, then minor, then patch. -/
def semverLe (a b : Nat × Nat × Nat) : Prop :=
  a.1 < b.1 ∨ (a.1 = b.1 ∧ (a.2.1 < b.2.1 ∨ (a.2.1 = b.2.1 ∧ a.2.2 ≤ b.2.2)))

/-- Strict semantic-version order. -/
def semverLt (a b : Nat × Nat × Nat) : Prop :=
  a.1 < b.1 ∨ (a.1 = b.1 ∧ (a.2.1 < b.2.1 ∨ (a.2.1 = b.2.1 ∧ a.2.2 < b.2.2)))

instance (a b : Nat × Nat × Nat) : Decidable (semverLe a b) := by
  unfold semverLe; infer_instance

instance (a b : Nat × Nat × Nat) : Decidable (semverLt a b) := by
  unfold semverLt; infer_instance


/-! ## The commits endpoint and `count_commits_by_type`

`count_commits_by_type` (lines 138-164 of `main.py`) builds the query
`params = {"ref_name": to_branch, "since": self._get_commit_date(from_commit)}`
but then issues `requests.get(url, headers=self.headers)` WITHOUT passing
`params`, so the host answers the unparameterised listing (its default
branch, unfiltered by date). The endpoint is modelled as a function from
the optional query to the returned titles so that both the request the
code makes (`none`) and the request the spec describes (`some query`) are
expressible. -/

/-- The query string parameters of `GET /repository/commits`. -/
structure CommitsQuery where
  ref_name : List Char
  since : List Char
deriving DecidableEq

/-- Read endpoints of the remote host used by the classification step:
the creation date of a commit/tag (`_get_commit_date`) and the commit
titles returned by the commits listing for a given (optional) query. -/
structure CommitsApi where
  commit_date : List Char → List Char
  list_commits : Option CommitsQuery → List (List Char)

/-- Embedding of `count_commits_by_type`: the `params` value is
computed exactly as in the source, but the listing is requested without it,
mirroring the `requests.get(url, headers=self.headers)` call that omits
`params`. -/
def count_commits_by_type (api : CommitsApi) (from_commit : List Char)
    (to_branch : List Char) : Counts :=
  let params : CommitsQuery :=
    { ref_name := to_branch, since := api.commit_date from_commit }
  count_commits_core (api.list_commits none)

/-! ## The release state machine (`run_release_proccess`) -/

/-- A point-in-time snapshot of the merge request, as returned by
`check_for_conflicts` (the fields of the GitLab merge-request JSON that
`run_release_proccess` reads). -/
structure MRState where
  has_conflicts : Bool
  changes_count : List Char
  merge_status : List Char
  prepared_at : Option (List Char)
  state : List Char
  web_url : List Char
deriving DecidableEq

/-- The default `to_branch` of `count_commits_by_type` (`"development"`). -/
def devBranch : List Char := "development".data

/-- The merge-request state the merged-poll waits for (`"merged"`). -/
def mergedLit : List Char := "merged".data

/-- The literal ref the source passes to `create_tag` (line 381:
`self.create_tag(new_tag, "main")`). -/
def mainLit : List Char := "main".data

/-- Python truthiness of the `prepared_at` JSON field (`null` and the empty
string are falsy). -/
def truthyOptStr : Option (List Char) → Bool
  | none => false
  | some s => !s.isEmpty

/-- Observable side effects of one run: the remote-mutating calls the
orchestrator makes, in order. -/
inductive Event where
  | openMR (source_branch target_branch title : List Char)
  | approve (mr_id : Int)
  | merge (mr_id : Int)
  | createTag (tag_name ref : List Char)
deriving DecidableEq

/-- Terminal status of a run: `done` is the success exit, `failed` models
`sys.exit(1)`, `hang` models a polling loop that never observes the
condition it waits for (within the supplied fuel). -/
inductive RunOutcome where
  | done
  | failed
  | hang
deriving DecidableEq

/-- First index `i` in `[start, start + fuel)` with `p i = true`. -/
def findFirst (p : Nat → Bool) : Nat → Nat → Option Nat
  | 0, _ => none
  | fuel + 1, start => if p start then some start else findFirst p fuel (start + 1)

/-- The environment a run executes against: the answers of the remote host.
`fetch i` is the merge-request snapshot returned by the `i`-th call to
`check_for_conflicts`; `approve_ok`, `merge_ok`, `tag_ok` are the booleans
`approve_merge_request`, `merge_mr` and `create_tag` return (these return
`False` on a non-2xx status rather than exiting). `source_branch` and
`target_branch` are the branches configured in the constructor; `today` is the
formatted current date. -/
structure ReleaseEnv where
  tags : List (List Char)
  api : CommitsApi
  today : List Char
  mr_iid : Int
  source_branch : List Char
  target_branch : List Char
  fetch : Nat → MRState
  approve_ok : Bool
  merge_ok : Bool
  tag_ok : Bool

/-- Embedding of `run_release_proccess` (lines 275-387 of `main.py`), with `skip = False`:
fetch the latest tag, classify commits (`to_branch` left at its default
`"development"`), compute the next tag (exiting on a malformed tag), open
the MR from `source_branch` to `target_branch`, poll `check_for_conflicts`
until `prepared_at` is truthy, abort if `has_conflicts`, approve, merge,
poll until `state == "merged"`, then create the tag — with the literal ref
`"main"` (`self.create_tag(new_tag, "main")`, line 381). `fuel1`/`fuel2`
bound the two polling loops; exhausting them models non-termination. -/
def run_release_proccess (env : ReleaseEnv) (fuel1 fuel2 : Nat) :
    RunOutcome × List Event :=
  let last_tag := get_latest_tag env.tags
  let commit_counts := count_commits_by_type env.api last_tag devBranch
  match generate_new_tag last_tag commit_counts with
  | none => (RunOutcome.failed, [])
  | some new_tag =>
    let mr_title := "Main Release: ".data ++ env.today ++ " TAG: ".data ++ new_tag
    let mr_id := env.mr_iid
    let ev0 := [Event.openMR env.source_branch env.target_branch mr_title]
    match findFirst (fun i => truthyOptStr (env.fetch i).prepared_at) fuel1 0 with
    | none => (RunOutcome.hang, ev0)
    | some i =>
      if (env.fetch i).has_conflicts then (RunOutcome.failed, ev0)
      else
        let ev1 := ev0 ++ [Event.approve mr_id]
        if !env.approve_ok then (RunOutcome.failed, ev1)
        else
          let ev2 := ev1 ++ [Event.merge mr_id]
          if !env.merge_ok then (RunOutcome.failed, ev2)
          else
            match findFirst (fun j => (env.fetch j).state = mergedLit)
                fuel2 (i + 1) with
            | none => (RunOutcome.hang, ev2)
            | some _ =>
              let ev3 := ev2 ++ [Event.createTag new_tag mainLit]
              if env.tag_ok then (RunOutcome.done, ev3)
              else (RunOutcome.failed, ev3)

/-! ## Helper definitions for the proofs -/

/-- True when the list does not start with a digit (the boundary condition
under which a maximal digit run ends). -/
def headNonDigit : List Char → Bool
  | [] => true
  | c :: _ => !isDigitChar c

/-- Value of a digit string continued from accumulator `a`, exactly the
accumulation `readNatAux` performs. -/
def digitsFoldVal (a : Nat) (l : List Char) : Nat :=
  l.foldl (fun x c => x * 10 + digitVal c) a

/-- Inverse of `splitDots`, used to recover the string from its groups. -/
def joinDots : List (List Char) → List Char
  | [] => []
  | [d] => d
  | d :: r => d ++ '.' :: joinDots r

/-! ## Event discriminators and concrete environments -/

/-- Is this event a `create_tag` call? -/
def Event.isCreateTag : Event → Bool
  | .createTag _ _ => true
  | _ => false

/-- Is this event an `approve_merge_request` call? -/
def Event.isApprove : Event → Bool
  | .approve _ => true
  | _ => false

/-- Is this event a `merge_mr` call? -/
def Event.isMerge : Event → Bool
  | .merge _ => true
  | _ => false

/-- A commits endpoint whose unparameterised listing (what the code actually
requests) contains one old feature commit, while the listing filtered by the
branch and the creation date of the reference tag is empty. -/
def apiStale : CommitsApi where
  commit_date := fun _ => "2025-06-01T00:00:00Z".data
  list_commits := fun q =>
    match q with
    | none => ["feat: ancient commit".data]
    | some _ => []

/-- Environment for a fully successful release run: one previous tag
`v1.2.3`, one feature and one other commit, no conflicts, approval, merge
and tag creation all succeed, and the second poll observes `merged`.
The configured target branch is `release` (differing from the literal
`"main"` used at tag creation). -/
def envSuccess : ReleaseEnv where
  tags := ["v1.2.3".data]
  api :=
    { commit_date := fun _ => "2025-06-01T00:00:00Z".data
      list_commits := fun _ => ["feat: new screen".data, "typo".data] }
  today := "12.10.2026".data
  mr_iid := 7
  source_branch := "development".data
  target_branch := "release".data
  fetch := fun n =>
    if n = 0 then
      { has_conflicts := false, changes_count := "3".data
        merge_status := "can_be_merged".data, prepared_at := some "t0".data
        state := "opened".data, web_url := "u".data }
    else
      { has_conflicts := false, changes_count := "3".data
        merge_status := "can_be_merged".data, prepared_at := some "t0".data
        state := "merged".data, web_url := "u".data }
  approve_ok := true
  merge_ok := true
  tag_ok := true

/-- Environment whose merge request reports conflicts as soon as it is
prepared. -/
def envConflict : ReleaseEnv where
  tags := ["v1.2.3".data]
  api :=
    { commit_date := fun _ => "2025-06-01T00:00:00Z".data
      list_commits := fun _ => ["typo".data] }
  today := "12.10.2026".data
  mr_iid := 7
  source_branch := "development".data
  target_branch := "main".data
  fetch := fun _ =>
    { has_conflicts := true, changes_count := "3".data
      merge_status := "cannot_be_merged".data, prepared_at := some "t0".data
      state := "opened".data, web_url := "u".data }
  approve_ok := true
  merge_ok := true
  tag_ok := true

/-! ## Lemmas about the classifier -/

/-- The `feat` counter accumulates: every title containing `feat:` adds one
and nothing else touches it. -/
theorem foldl_classify_feat (l : List (List Char)) (init : Counts) :
    (l.foldl classifyStep init).feat = init.feat + l.countP hasFeat := by
  induction l generalizing init with
  | nil => simp
  | cons t ts ih =>
    simp only [List.foldl_cons, List.countP_cons, ih]
    unfold classifyStep
    by_cases h : hasFeat t <;> simp [h] <;> omega

/-- On a run with no `feat:` title, the loop just counts the titles into
`fix`. -/
theorem foldl_classify_nofeat (l : List (List Char)) (init : Counts)
    (h : ∀ t ∈ l, hasFeat t = false) :
    l.foldl classifyStep init = ⟨init.fix + l.length, init.feat⟩ := by
  induction l generalizing init with
  | nil => simp
  | cons t ts ih =>
    have ht : hasFeat t = false := h t (List.mem_cons_self t ts)
    have hstep : classifyStep init t = { init with fix := init.fix + 1 } := by
      simp [classifyStep, ht]
    simp only [List.foldl_cons, hstep]
    rw [ih _ (fun x hx => h x (List.mem_cons_of_mem t hx))]
    simp only [List.length_cons, Counts.mk.injEq]
    exact ⟨by omega, trivial⟩

/-- Loop invariant: once `feat` is positive, `fix` is at least 1 (a `feat:`
title sets `fix := 1` and every other title increments it). -/
theorem foldl_classify_fix_pos (l : List (List Char)) (init : Counts)
    (h : 0 < init.feat → 1 ≤ init.fix) :
    0 < (l.foldl classifyStep init).feat → 1 ≤ (l.foldl classifyStep init).fix := by
  induction l generalizing init with
  | nil => exact h
  | cons t ts ih =>
    simp only [List.foldl_cons]
    apply ih
    unfold classifyStep
    by_cases hf : hasFeat t <;> simp [hf] <;> omega

/-! ## Lemmas about digits, parsing and rendering -/

theorem digitVal_digitChar (m : Nat) (hm : m < 10) : digitVal (digitChar m) = m := by
  interval_cases m <;> decide

theorem isDigitChar_digitChar (m : Nat) (hm : m < 10) :
    isDigitChar (digitChar m) = true := by
  interval_cases m <;> decide

/-- The function `readNatAux` consumes exactly a leading all-digit run. -/
theorem readNatAux_digits (ds : List Char) (rest : List Char) (acc : Nat)
    (hds : ∀ c ∈ ds, isDigitChar c = true) (hrest : headNonDigit rest = true) :
    readNatAux (ds ++ rest) acc = (digitsFoldVal acc ds, rest) := by
  induction ds generalizing acc with
  | nil =>
    cases rest with
    | nil => simp [readNatAux, digitsFoldVal]
    | cons c cs =>
      simp only [headNonDigit, Bool.not_eq_true'] at hrest
      simp [readNatAux, hrest, digitsFoldVal]
  | cons d ds' ih =>
    have hd : isDigitChar d = true := hds d (List.mem_cons_self d ds')
    simp only [List.cons_append, readNatAux, hd, if_true, List.append_eq]
    rw [ih _ (fun c hc => hds c (List.mem_cons_of_mem d hc))]
    simp [digitsFoldVal]

/-- Behaviour of `readNat` on a nonempty all-digit run followed by a
non-digit boundary. -/
theorem readNat_digits (ds rest : List Char) (h1 : ds ≠ [])
    (h2 : ∀ c ∈ ds, isDigitChar c = true) (h3 : headNonDigit rest = true) :
    readNat (ds ++ rest) = some (digitsFoldVal 0 ds, rest) := by
  cases ds with
  | nil => exact absurd rfl h1
  | cons d ds' =>
    have hd : isDigitChar d = true := h2 d (List.mem_cons_self d ds')
    simp only [List.cons_append, readNat, hd, if_true]
    rw [readNatAux_digits ds' rest (digitVal d)
      (fun c hc => h2 c (List.mem_cons_of_mem d hc)) h3]
    simp [digitsFoldVal]

/-- The function `natDigitsAux` only prepends to its accumulator. -/
theorem natDigitsAux_append (fuel : Nat) :
    ∀ n tail, ∃ pre, natDigitsAux fuel n tail = pre ++ tail := by
  induction fuel with
  | zero =>
    intro n tail
    cases n <;> exact ⟨[], rfl⟩
  | succ g ih =>
    intro n tail
    cases n with
    | zero => exact ⟨[], rfl⟩
    | succ m =>
      obtain ⟨pre, hpre⟩ := ih ((m + 1) / 10) (digitChar ((m + 1) % 10) :: tail)
      exact ⟨pre ++ [digitChar ((m + 1) % 10)], by
        simp [natDigitsAux, hpre]⟩

/-- Every character `natDigitsAux` emits is a digit. -/
theorem natDigitsAux_allDigits (fuel : Nat) :
    ∀ n tail, (∀ c ∈ tail, isDigitChar c = true) →
      ∀ c ∈ natDigitsAux fuel n tail, isDigitChar c = true := by
  induction fuel with
  | zero =>
    intro n tail htail
    cases n <;> exact htail
  | succ g ih =>
    intro n tail htail
    cases n with
    | zero => exact htail
    | succ m =>
      refine ih ((m + 1) / 10) _ ?_
      intro c hc
      rcases List.mem_cons.mp hc with h | h
      · subst h; exact isDigitChar_digitChar _ (Nat.mod_lt _ (by omega))
      · exact htail c h

/-- Value correctness of `natDigitsAux`: reading the emitted digits back
continues the accumulation with exactly `n` appended in base 10. -/
theorem natDigitsAux_val (fuel : Nat) :
    ∀ n tail a, n ≤ fuel →
      ∃ k, digitsFoldVal a (natDigitsAux fuel n tail) =
        digitsFoldVal (a * 10 ^ k + n) tail := by
  induction fuel with
  | zero =>
    intro n tail a hn
    interval_cases n
    exact ⟨0, by simp [natDigitsAux]⟩
  | succ g ih =>
    intro n tail a hn
    cases n with
    | zero => exact ⟨0, by simp [natDigitsAux]⟩
    | succ m =>
      have hq : (m + 1) / 10 ≤ g := by
        have := Nat.div_lt_self (Nat.succ_pos m) (show 1 < 10 by omega)
        omega
      obtain ⟨k, hk⟩ := ih ((m + 1) / 10) (digitChar ((m + 1) % 10) :: tail) a hq
      refine ⟨k + 1, ?_⟩
      have hstep : digitsFoldVal (a * 10 ^ k + (m + 1) / 10)
          (digitChar ((m + 1) % 10) :: tail) =
          digitsFoldVal ((a * 10 ^ k + (m + 1) / 10) * 10 + (m + 1) % 10) tail := by
        simp [digitsFoldVal, digitVal_digitChar _ (Nat.mod_lt _ (by omega))]
      calc digitsFoldVal a (natDigitsAux (g + 1) (m + 1) tail)
          = digitsFoldVal a (natDigitsAux g ((m + 1) / 10)
              (digitChar ((m + 1) % 10) :: tail)) := by rw [natDigitsAux]
        _ = digitsFoldVal (a * 10 ^ k + (m + 1) / 10)
              (digitChar ((m + 1) % 10) :: tail) := hk
        _ = digitsFoldVal ((a * 10 ^ k + (m + 1) / 10) * 10 + (m + 1) % 10) tail := hstep
        _ = digitsFoldVal (a * 10 ^ (k + 1) + (m + 1)) tail := by
              have harg : (a * 10 ^ k + (m + 1) / 10) * 10 + (m + 1) % 10
                  = a * 10 ^ (k + 1) + (m + 1) := by
                have hpow : a * 10 ^ (k + 1) = a * 10 ^ k * 10 := by ring
                rw [hpow]
                omega
              rw [harg]

/-- The list `natDigits n` is a nonempty all-digit string whose value is `n`. -/
theorem natDigits_spec (n : Nat) :
    natDigits n ≠ [] ∧ (∀ c ∈ natDigits n, isDigitChar c = true) ∧
      digitsFoldVal 0 (natDigits n) = n := by
  by_cases h : n = 0
  · subst h; refine ⟨by decide, by decide, by decide⟩
  · have hne : natDigits n = natDigitsAux n n [] := by simp [natDigits, h]
    refine ⟨?_, ?_, ?_⟩
    · rw [hne]
      cases n with
      | zero => exact absurd rfl h
      | succ m =>
        rw [natDigitsAux]
        obtain ⟨pre, hpre⟩ :=
          natDigitsAux_append m ((m + 1) / 10) (digitChar ((m + 1) % 10) :: [])
        rw [hpre]
        simp
    · rw [hne]
      exact natDigitsAux_allDigits n n [] (by simp)
    · rw [hne]
      obtain ⟨k, hk⟩ := natDigitsAux_val n n [] 0 (le_refl n)
      rw [hk]
      simp [digitsFoldVal]

/-- Reading back a rendered number at a non-digit boundary recovers it. -/
theorem readNat_natDigits (n : Nat) (rest : List Char)
    (h : headNonDigit rest = true) :
    readNat (natDigits n ++ rest) = some (n, rest) := by
  obtain ⟨h1, h2, h3⟩ := natDigits_spec n
  rw [readNat_digits (natDigits n) rest h1 h2 h, h3]

/-- Parsing a `v`-prefixed triple of nonempty digit groups yields their
values (with nothing left over after the third group). -/
theorem parse_vtag_groups (d1 d2 d3 : List Char)
    (h1 : d1 ≠ []) (h2 : d2 ≠ []) (h3 : d3 ≠ [])
    (g1 : ∀ c ∈ d1, isDigitChar c = true) (g2 : ∀ c ∈ d2, isDigitChar c = true)
    (g3 : ∀ c ∈ d3, isDigitChar c = true) :
    parse_vtag ('v' :: (d1 ++ '.' :: (d2 ++ '.' :: d3)))
      = some (digitsFoldVal 0 d1, digitsFoldVal 0 d2, digitsFoldVal 0 d3) := by
  have hdot : ∀ x : List Char, headNonDigit ('.' :: x) = true := fun _ => rfl
  have hr3 : readNat d3 = some (digitsFoldVal 0 d3, []) := by
    have := readNat_digits d3 [] h3 g3 rfl
    rwa [List.append_nil] at this
  simp only [parse_vtag]
  rw [readNat_digits d1 _ h1 g1 (hdot _)]
  simp only [Option.bind_eq_bind, Option.some_bind]
  rw [readNat_digits d2 _ h2 g2 (hdot _)]
  simp only [Option.some_bind]
  rw [hr3]
  rfl

/-- Round trip: the tag string produced by `render_vtag` is parsed back to
exactly its components by the regex model. -/
theorem parse_render (M m p : Nat) :
    parse_vtag (render_vtag M m p) = some (M, m, p) := by
  obtain ⟨h1M, h2M, h3M⟩ := natDigits_spec M
  obtain ⟨h1m, h2m, h3m⟩ := natDigits_spec m
  obtain ⟨h1p, h2p, h3p⟩ := natDigits_spec p
  unfold render_vtag
  rw [parse_vtag_groups _ _ _ h1M h1m h1p h2M h2m h2p, h3M, h3m, h3p]

/-! ## Lemmas about `splitDots` and the spec-side tag format -/

theorem splitDots_ne_nil (l : List Char) : splitDots l ≠ [] := by
  cases l with
  | nil => simp [splitDots]
  | cons c t =>
    simp only [splitDots]
    by_cases hc : c = '.'
    · simp [hc]
    · simp only [hc, if_false]
      cases h : splitDots t <;> simp

theorem splitDots_cons_ne (c : Char) (t : List Char) (hc : c ≠ '.') :
    splitDots (c :: t) =
      match splitDots t with
      | [] => [[c]]
      | h :: r => (c :: h) :: r := by
  simp [splitDots, hc]

theorem joinDots_cons_cons (c : Char) (h : List Char) (r : List (List Char)) :
    joinDots ((c :: h) :: r) = c :: joinDots (h :: r) := by
  cases r with
  | nil => rfl
  | cons h2 r2 => rfl

theorem joinDots_splitDots (l : List Char) : joinDots (splitDots l) = l := by
  induction l with
  | nil => rfl
  | cons c t ih =>
    by_cases hc : c = '.'
    · subst hc
      simp only [splitDots, if_pos rfl]
      cases h : splitDots t with
      | nil => exact absurd h (splitDots_ne_nil t)
      | cons h2 r2 =>
        have hjoin : joinDots (h2 :: r2) = t := by rw [← h]; exact ih
        show joinDots ([] :: h2 :: r2) = '.' :: t
        rw [show joinDots ([] :: h2 :: r2) = '.' :: joinDots (h2 :: r2) from rfl, hjoin]
    · rw [splitDots_cons_ne c t hc]
      cases h : splitDots t with
      | nil => exact absurd h (splitDots_ne_nil t)
      | cons h2 r2 =>
        have hjoin : joinDots (h2 :: r2) = t := by rw [← h]; exact ih
        rw [joinDots_cons_cons, hjoin]

/-- A three-way split determines the decomposition of the string. -/
theorem splitDots_three (l d1 d2 d3 : List Char) (h : splitDots l = [d1, d2, d3]) :
    l = d1 ++ '.' :: (d2 ++ '.' :: d3) := by
  have hj := joinDots_splitDots l
  rw [h] at hj
  rw [← hj]
  rfl

theorem isDigitChar_ne_dot (c : Char) (h : isDigitChar c = true) : c ≠ '.' := by
  intro hc
  subst hc
  exact absurd h (by decide)

theorem splitDots_digits_append (d : List Char) (rest : List Char)
    (hd : ∀ c ∈ d, isDigitChar c = true) :
    splitDots (d ++ '.' :: rest) = d :: splitDots rest := by
  induction d with
  | nil => simp [splitDots]
  | cons c d' ih =>
    have hc : c ≠ '.' := isDigitChar_ne_dot c (hd c (List.mem_cons_self c d'))
    rw [List.cons_append, splitDots_cons_ne c _ hc,
      ih (fun x hx => hd x (List.mem_cons_of_mem c hx))]

theorem splitDots_digits (d : List Char) (hd : ∀ c ∈ d, isDigitChar c = true) :
    splitDots d = [d] := by
  induction d with
  | nil => rfl
  | cons c d' ih =>
    have hc : c ≠ '.' := isDigitChar_ne_dot c (hd c (List.mem_cons_self c d'))
    rw [splitDots_cons_ne c _ hc, ih (fun x hx => hd x (List.mem_cons_of_mem c hx))]

theorem ne_nil_of_not_isEmpty (d : List Char) (h : (!d.isEmpty) = true) :
    d ≠ [] := by
  cases d <;> simp_all

theorem not_isEmpty_of_ne_nil (d : List Char) (h : d ≠ []) :
    (!d.isEmpty) = true := by
  cases d <;> simp_all

/-- The rendered tag is of the exact spec form `v<digits>.<digits>.<digits>`. -/
theorem spec_full_render (M m p : Nat) :
    spec_full_vtag (render_vtag M m p) = true := by
  obtain ⟨h1M, h2M, _⟩ := natDigits_spec M
  obtain ⟨h1m, h2m, _⟩ := natDigits_spec m
  obtain ⟨h1p, h2p, _⟩ := natDigits_spec p
  unfold render_vtag
  simp only [spec_full_vtag]
  rw [splitDots_digits_append _ _ h2M, splitDots_digits_append _ _ h2m,
    splitDots_digits _ h2p]
  simp only [Bool.and_eq_true, beq_self_eq_true, true_and]
  refine ⟨⟨⟨⟨⟨not_isEmpty_of_ne_nil _ h1M, not_isEmpty_of_ne_nil _ h1m⟩,
    not_isEmpty_of_ne_nil _ h1p⟩, ?_⟩, ?_⟩, ?_⟩ <;>
    simp only [allDigits, List.all_eq_true] <;> assumption

/-- Eliminating the spec-side format: a full-form tag string decomposes into
three nonempty digit groups. -/
theorem spec_full_elim (s : List Char) (h : spec_full_vtag s = true) :
    ∃ d1 d2 d3 : List Char, s = 'v' :: (d1 ++ '.' :: (d2 ++ '.' :: d3)) ∧
      d1 ≠ [] ∧ d2 ≠ [] ∧ d3 ≠ [] ∧
      (∀ c ∈ d1, isDigitChar c = true) ∧ (∀ c ∈ d2, isDigitChar c = true) ∧
      (∀ c ∈ d3, isDigitChar c = true) := by
  cases s with
  | nil => exact absurd h (by decide)
  | cons c rest =>
    unfold spec_full_vtag at h
    rw [Bool.and_eq_true] at h
    obtain ⟨hc, hm⟩ := h
    have hc' : c = 'v' := by simpa using hc
    subst hc'
    cases h1 : splitDots rest with
    | nil => exact absurd h1 (splitDots_ne_nil rest)
    | cons d1 r1 =>
      cases r1 with
      | nil => rw [h1] at hm; simp at hm
      | cons d2 r2 =>
        cases r2 with
        | nil => rw [h1] at hm; simp at hm
        | cons d3 r3 =>
          cases r3 with
          | cons d4 r4 => rw [h1] at hm; simp at hm
          | nil =>
            rw [h1] at hm
            simp only [Bool.and_eq_true, allDigits, List.all_eq_true] at hm
            obtain ⟨⟨⟨⟨⟨e1, e2⟩, e3⟩, a1⟩, a2⟩, a3⟩ := hm
            exact ⟨d1, d2, d3, by rw [splitDots_three rest d1 d2 d3 h1],
              ne_nil_of_not_isEmpty _ e1, ne_nil_of_not_isEmpty _ e2,
              ne_nil_of_not_isEmpty _ e3, a1, a2, a3⟩

/-- A read starting at a nonempty digit run succeeds whatever follows. -/
theorem readNat_isSome (ds rest : List Char) (h1 : ds ≠ [])
    (h2 : ∀ c ∈ ds, isDigitChar c = true) :
    ∃ v r2, readNat (ds ++ rest) = some (v, r2) := by
  cases ds with
  | nil => exact absurd rfl h1
  | cons d t =>
    have hd : isDigitChar d = true := h2 d (List.mem_cons_self d t)
    exact ⟨(readNatAux (t ++ rest) (digitVal d)).1,
      (readNatAux (t ++ rest) (digitVal d)).2, by simp [readNat, hd]⟩

/-- Inversion of `readNatAux`: the consumed part is an all-digit run. -/
theorem readNatAux_inv (cs : List Char) :
    ∀ acc v r, readNatAux cs acc = (v, r) →
      ∃ ds, (∀ c ∈ ds, isDigitChar c = true) ∧ cs = ds ++ r := by
  induction cs with
  | nil =>
    intro acc v r h
    have hr : r = [] := (congrArg Prod.snd h).symm
    exact ⟨[], by simp, by simp [hr]⟩
  | cons c t ih =>
    intro acc v r h
    by_cases hc : isDigitChar c = true
    · simp only [readNatAux, hc, if_true] at h
      obtain ⟨ds, hds, ht⟩ := ih _ _ _ h
      refine ⟨c :: ds, ?_, by simp [ht]⟩
      intro x hx
      rcases List.mem_cons.mp hx with h1 | h1
      · subst h1; exact hc
      · exact hds x h1
    · simp only [readNatAux, hc, if_false] at h
      have hr : r = c :: t := (congrArg Prod.snd h).symm
      exact ⟨[], by simp, by simp [hr]⟩

/-- Inversion of `readNat`: success means a nonempty leading digit run
followed by the returned remainder. -/
theorem readNat_inv (l : List Char) (v : Nat) (r : List Char)
    (h : readNat l = some (v, r)) :
    ∃ ds, ds ≠ [] ∧ (∀ c ∈ ds, isDigitChar c = true) ∧ l = ds ++ r := by
  cases l with
  | nil => simp [readNat] at h
  | cons c t =>
    by_cases hc : isDigitChar c = true
    · simp only [readNat, hc, if_true, Option.some.injEq] at h
      obtain ⟨ds, hds, ht⟩ := readNatAux_inv t (digitVal c) v r h
      refine ⟨c :: ds, by simp, ?_, by simp [ht]⟩
      intro x hx
      rcases List.mem_cons.mp hx with h1 | h1
      · subst h1; exact hc
      · exact hds x h1
    · simp [readNat, hc] at h

/-- The parser accepts any string with a well-formed
`v<int>.<int>.<int>` prefix, whatever trails the third group. -/
theorem parse_vtag_prefix (d1 d2 d3 r : List Char)
    (h1 : d1 ≠ []) (h2 : d2 ≠ []) (h3 : d3 ≠ [])
    (g1 : ∀ c ∈ d1, isDigitChar c = true) (g2 : ∀ c ∈ d2, isDigitChar c = true)
    (g3 : ∀ c ∈ d3, isDigitChar c = true) :
    (parse_vtag ('v' :: (d1 ++ '.' :: (d2 ++ '.' :: (d3 ++ r))))).isSome
      = true := by
  have hdot : ∀ x : List Char, headNonDigit ('.' :: x) = true := fun _ => rfl
  obtain ⟨v3, r3, hr⟩ := readNat_isSome d3 r h3 g3
  simp only [parse_vtag]
  rw [readNat_digits d1 _ h1 g1 (hdot _)]
  simp only [Option.bind_eq_bind, Option.some_bind]
  rw [readNat_digits d2 _ h2 g2 (hdot _)]
  simp only [Option.some_bind]
  rw [hr]
  rfl

/-- Inversion of the parser: any accepted string starts with
`v<int>.<int>.<int>`. -/
theorem parse_vtag_inv (s : List Char) (t : Nat × Nat × Nat)
    (h : parse_vtag s = some t) : spec_prefix_vtag s := by
  unfold parse_vtag at h
  split at h
  case h_2 => exact absurd h (by simp)
  case h_1 rest =>
    cases hr1 : readNat rest with
    | none => rw [hr1] at h; exact absurd h (by simp)
    | some p1 =>
      obtain ⟨M1, r1⟩ := p1
      rw [hr1] at h
      simp only [Option.bind_eq_bind, Option.some_bind] at h
      split at h
      case h_2 => exact absurd h (by simp)
      case h_1 r2 =>
        cases hr2 : readNat r2 with
        | none => rw [hr2] at h; exact absurd h (by simp)
        | some p2 =>
          obtain ⟨M2, r3⟩ := p2
          rw [hr2] at h
          simp only [Option.some_bind] at h
          split at h
          case h_2 => exact absurd h (by simp)
          case h_1 r4 =>
            cases hr3 : readNat r4 with
            | none => rw [hr3] at h; exact absurd h (by simp)
            | some p3 =>
              obtain ⟨M3, r5⟩ := p3
              obtain ⟨d1, h1ne, h1dig, he1⟩ := readNat_inv rest M1 _ hr1
              obtain ⟨d2, h2ne, h2dig, he2⟩ := readNat_inv r2 M2 _ hr2
              obtain ⟨d3, h3ne, h3dig, he3⟩ := readNat_inv r4 M3 r5 hr3
              refine ⟨d1, d2, d3, r5, h1ne, h2ne, h3ne, h1dig, h2dig, h3dig, ?_⟩
              rw [he1, he2, he3]

/-! ## The claims -/

/-- C1: the classification is NOT produced only from the commits on the
requested branch newer than the reference tag: `count_commits_by_type`
computes the `ref_name`/`since` query but requests the listing without it,
so a commit outside the branch/date window (present only in the
unfiltered listing) is counted. At `apiStale` with reference `v1.0.0` and
branch `development` the code returns `{fix: 1, feat: 1}` although the
filtered listing is empty (classifying to `{fix: 0, feat: 0}`). -/
theorem C1_filters_ignored :
    count_commits_by_type apiStale "v1.0.0".data "development".data
        = ⟨1, 1⟩ ∧
      apiStale.list_commits
        (some ⟨"development".data, apiStale.commit_date "v1.0.0".data⟩) = [] ∧
      count_commits_core (apiStale.list_commits
        (some ⟨"development".data, apiStale.commit_date "v1.0.0".data⟩))
        = ⟨0, 0⟩ := by
  refine ⟨by decide, by decide, by decide⟩

/-- C2 (amended): on the success path (no conflicts at the first prepared
snapshot, approve and merge succeed, the merge poll eventually observes
`state == "merged"`, tag creation succeeds) the run terminates in the
success state and calls `create_tag` exactly once, with the computed next
version as the tag name and the LITERAL ref `"main"` (the source hardcodes
`"main"`; the configured target branch is not used at tag creation). -/
theorem C2_success_creates_tag_once (env : ReleaseEnv) (fuel1 fuel2 : Nat)
    (new_tag : List Char) (i : Nat)
    (hgen : generate_new_tag (get_latest_tag env.tags)
      (count_commits_by_type env.api (get_latest_tag env.tags) devBranch)
      = some new_tag)
    (hprep : findFirst (fun n => truthyOptStr (env.fetch n).prepared_at)
      fuel1 0 = some i)
    (hnoconf : (env.fetch i).has_conflicts = false)
    (happr : env.approve_ok = true)
    (hmerge : env.merge_ok = true)
    (hmerged : (findFirst (fun j => (env.fetch j).state = mergedLit)
      fuel2 (i + 1)).isSome = true)
    (htag : env.tag_ok = true) :
    (run_release_proccess env fuel1 fuel2).1 = RunOutcome.done ∧
      (run_release_proccess env fuel1 fuel2).2.filter Event.isCreateTag
        = [Event.createTag new_tag mainLit] := by
  obtain ⟨j, hj⟩ := Option.isSome_iff_exists.mp hmerged
  unfold run_release_proccess
  simp only [hgen, hprep, hnoconf, happr, hmerge, hj, htag]
  simp [Event.isCreateTag]

/-- Witness for C2 at the concrete environment `envSuccess`. -/
theorem C2_success_witness :
    (run_release_proccess envSuccess 1 1).1 = RunOutcome.done ∧
      (run_release_proccess envSuccess 1 1).2.filter Event.isCreateTag
        = [Event.createTag "v1.3.2".data "main".data] :=
  C2_success_creates_tag_once envSuccess 1 1 "v1.3.2".data 0 (by decide)
    (by decide) (by decide) rfl rfl (by decide) rfl

/-- C2 as stated is false: with `envSuccess` the configured target branch
is `release`, yet the single `create_tag` call uses the ref `"main"`. -/
theorem C2_counterexample :
    envSuccess.target_branch = "release".data ∧
      (run_release_proccess envSuccess 1 1).2.filter Event.isCreateTag
        = [Event.createTag "v1.3.2".data "main".data] ∧
      "main".data ≠ "release".data := by
  refine ⟨by decide, by decide, by decide⟩

/-- C3 as stated is false: the classification is order-dependent, because
a `feat:` title resets `fix` to 1. The two-title multiset
`[feat: a, chore]` classifies to `{fix: 2, feat: 1}` in one order and to
`{fix: 1, feat: 1}` in the other. -/
theorem C3_counterexample :
    List.Perm ["feat: a".data, "chore".data] ["chore".data, "feat: a".data] ∧
      count_commits_core ["feat: a".data, "chore".data]
        ≠ count_commits_core ["chore".data, "feat: a".data] := by
  refine ⟨by decide, by decide⟩

/-- C3 (amended): the `feat` component of the classification is
permutation-invariant, and on sequences with no `feat:` title the whole
classification is permutation-invariant; the `fix` component is not
permutation-invariant in general. -/
theorem C3_feat_invariant (l1 l2 : List (List Char)) (h : l1.Perm l2) :
    (count_commits_core l1).feat = (count_commits_core l2).feat ∧
      ((∀ t ∈ l1, hasFeat t = false) →
        count_commits_core l1 = count_commits_core l2) := by
  constructor
  · unfold count_commits_core
    rw [foldl_classify_feat, foldl_classify_feat, h.countP_eq]
  · intro hnf
    have hnf2 : ∀ t ∈ l2, hasFeat t = false :=
      fun t ht => hnf t (h.mem_iff.mpr ht)
    unfold count_commits_core
    rw [foldl_classify_nofeat _ _ hnf, foldl_classify_nofeat _ _ hnf2,
      h.length_eq]

/-- Witness for C3 (amended) at a concrete permutation. -/
theorem C3_feat_invariant_witness :
    (count_commits_core ["feat: a".data, "chore".data]).feat
        = (count_commits_core ["chore".data, "feat: a".data]).feat ∧
      ((∀ t ∈ ["feat: a".data, "chore".data], hasFeat t = false) →
        count_commits_core ["feat: a".data, "chore".data]
          = count_commits_core ["chore".data, "feat: a".data]) :=
  C3_feat_invariant ["feat: a".data, "chore".data]
    ["chore".data, "feat: a".data] (by decide)

/-- C4 as stated is false: from the previous tag `v1.2.3` with the empty
classification the code produces `v1.2.1`, which is strictly BELOW the
previous tag in semantic-version order. -/
theorem C4_counterexample :
    parse_vtag "v1.2.3".data = some (1, 2, 3) ∧
      generate_new_tag "v1.2.3".data ⟨0, 0⟩ = some "v1.2.1".data ∧
      parse_vtag "v1.2.1".data = some (1, 2, 1) ∧
      ¬ semverLe (1, 2, 3) (1, 2, 1) := by
  refine ⟨by decide, by decide, by decide, by decide⟩

/-- C4 (amended): whenever the classification is nonempty (`feat > 0` or
`fix > 0`), the generated version is strictly above the previous tag in
semantic-version order. (With the empty classification the patch is set
absolutely to 1, which can fall below the previous tag — see the
counterexample.) -/
theorem C4_next_above_previous (v : List Char) (M m p : Nat) (c : Counts)
    (hv : parse_vtag v = some (M, m, p)) (hc : 0 < c.feat ∨ 0 < c.fix) :
    ∃ M2 m2 p2, generate_new_tag v c = some (render_vtag M2 m2 p2) ∧
      semverLt (M, m, p) (M2, m2, p2) := by
  simp only [generate_new_tag, hv]
  by_cases hf : c.feat > 0
  · rw [if_pos hf]
    refine ⟨M, m + c.feat, _, rfl, Or.inr ⟨rfl, Or.inl ?_⟩⟩
    show m < m + c.feat
    omega
  · have hx : c.fix > 0 := by omega
    rw [if_neg hf, if_pos hx]
    refine ⟨M, m, p + c.fix, rfl, Or.inr ⟨rfl, Or.inr ⟨rfl, ?_⟩⟩⟩
    show p < p + c.fix
    omega

/-- Witness for C4 (amended) at `v1.2.3` with `{feat: 0, fix: 4}`. -/
theorem C4_next_above_previous_witness :
    ∃ M2 m2 p2,
      generate_new_tag "v1.2.3".data ⟨4, 0⟩ = some (render_vtag M2 m2 p2) ∧
        semverLt (1, 2, 3) (M2, m2, p2) :=
  C4_next_above_previous "v1.2.3".data 1 2 3 ⟨4, 0⟩ (by decide)
    (Or.inr (by decide))

/-- C5 as stated is false: `generate_new_tag("v1.2.3", {feat: 0, fix: 0})`
is `v1.2.1`, not the claimed `v1.2.4`. -/
theorem C5_counterexample :
    generate_new_tag "v1.2.3".data ⟨0, 0⟩ = some "v1.2.1".data ∧
      "v1.2.1".data ≠ "v1.2.4".data := by
  refine ⟨by decide, by decide⟩

/-- C5 (amended): with the empty classification, major and minor are
unchanged and the patch component is set ABSOLUTELY to 1 (not previous
patch plus one): `v{M}.{m}.{p}` yields `v{M}.{m}.1`. -/
theorem C5_empty_classification (v : List Char) (M m p : Nat)
    (hv : parse_vtag v = some (M, m, p)) :
    generate_new_tag v ⟨0, 0⟩ = some (render_vtag M m 1) := by
  simp only [generate_new_tag, hv]
  rfl

/-- Witness for C5 (amended) at `v1.2.3`. -/
theorem C5_empty_classification_witness :
    generate_new_tag "v1.2.3".data ⟨0, 0⟩ = some (render_vtag 1 2 1) :=
  C5_empty_classification "v1.2.3".data 1 2 3 (by decide)

/-- C6: with `feat > 0` and `fix > 0`, the major is unchanged, `feat` is
added to the minor, and the patch is set to exactly `fix` by absolute
assignment. -/
theorem C6_feat_and_fix (v : List Char) (M m p : Nat) (c : Counts)
    (hv : parse_vtag v = some (M, m, p)) (hf : 0 < c.feat) (hx : 0 < c.fix) :
    generate_new_tag v c = some (render_vtag M (m + c.feat) c.fix) := by
  simp only [generate_new_tag, hv]
  rw [if_pos hf, if_pos hx]

/-- Witness for C6: `v1.2.3` with `{feat: 2, fix: 5}` yields `v1.4.5`. -/
theorem C6_feat_and_fix_witness :
    generate_new_tag "v1.2.3".data ⟨5, 2⟩ = some (render_vtag 1 (2 + 2) 5) ∧
      render_vtag 1 (2 + 2) 5 = "v1.4.5".data :=
  ⟨C6_feat_and_fix "v1.2.3".data 1 2 3 ⟨5, 2⟩ (by decide) (by decide)
    (by decide), by decide⟩

/-- C7 as stated is false: the code uses `re.match`, which anchors only at
the start, so `"v2.3.4rc"` — not of the full form
`v<int>.<int>.<int>` — is still accepted and produces a version instead
of failing. -/
theorem C7_counterexample :
    spec_full_vtag "v2.3.4rc".data = false ∧
      generate_new_tag "v2.3.4rc".data ⟨0, 0⟩ = some "v2.3.1".data := by
  refine ⟨by decide, by decide⟩

/-- C7 (amended): `generate_new_tag` fails with the fatal format error
EXACTLY when the previous-tag string does not START with
`v<int>.<int>.<int>` (so no such input produces a version); every string
of the exact full form succeeds, and the malformed inputs `"2.3.4"`,
`"v2.3"` and `"vX.Y.Z"` all fail (no silent default). Acceptance extends
beyond the full form to strings with a well-formed prefix followed by
trailing characters (see the counterexample). -/
theorem C7_format_error (s : List Char) (c : Counts) :
    (generate_new_tag s c = none ↔ ¬ spec_prefix_vtag s) ∧
      (spec_full_vtag s = true → (generate_new_tag s c).isSome = true) ∧
      generate_new_tag "2.3.4".data c = none ∧
      generate_new_tag "v2.3".data c = none ∧
      generate_new_tag "vX.Y.Z".data c = none := by
  have hgen_some : ∀ x, parse_vtag s = some x →
      (generate_new_tag s c).isSome = true := by
    intro x hx
    obtain ⟨M, m, p⟩ := x
    simp only [generate_new_tag, hx]
    by_cases hf : c.feat > 0
    · rw [if_pos hf]; rfl
    · rw [if_neg hf]
      by_cases hfx : c.fix > 0
      · rw [if_pos hfx]; rfl
      · rw [if_neg hfx]; rfl
  refine ⟨⟨?_, ?_⟩, ?_, rfl, rfl, rfl⟩
  · intro hnone hpre
    obtain ⟨d1, d2, d3, r, h1, h2, h3, g1, g2, g3, hs⟩ := hpre
    subst hs
    have hps := parse_vtag_prefix d1 d2 d3 r h1 h2 h3 g1 g2 g3
    obtain ⟨x, hx⟩ := Option.isSome_iff_exists.mp hps
    have := hgen_some x hx
    rw [hnone] at this
    exact absurd this (by simp)
  · intro hnpre
    cases hp : parse_vtag s with
    | none => simp [generate_new_tag, hp]
    | some t => exact absurd (parse_vtag_inv s t hp) hnpre
  · intro h
    obtain ⟨d1, d2, d3, hs, h1, h2, h3, g1, g2, g3⟩ := spec_full_elim s h
    subst hs
    exact hgen_some _ (parse_vtag_groups d1 d2 d3 h1 h2 h3 g1 g2 g3)

/-- Witness for C7 (amended): a full-form tag is accepted, an accepted
tag has a well-formed prefix, and a listed malformed tag fails. -/
theorem C7_format_error_witness :
    (generate_new_tag "v9.9.9".data ⟨3, 0⟩).isSome = true ∧
      ¬ (generate_new_tag "v9.9.9".data ⟨3, 0⟩ = none) ∧
      generate_new_tag "2.3.4".data ⟨3, 0⟩ = none :=
  ⟨(C7_format_error "v9.9.9".data ⟨3, 0⟩).2.1 (by decide),
    fun hn => ((C7_format_error "v9.9.9".data ⟨3, 0⟩).1.mp hn)
      ⟨['9'], ['9'], ['9'], [], by decide, by decide, by decide, by decide,
        by decide, by decide, by decide⟩,
    (C7_format_error "2.3.4".data ⟨3, 0⟩).2.2.1⟩

/-- C8: if the first fetched snapshot with `prepared_at` set reports
conflicts, the run terminates in the failed state and the event trace
contains no approve, merge or tag-creation call. (If the previous tag is
malformed the run fails even earlier, with no remote-mutating call at
all.) -/
theorem C8_conflict_aborts (env : ReleaseEnv) (fuel1 fuel2 i : Nat)
    (hprep : findFirst (fun n => truthyOptStr (env.fetch n).prepared_at)
      fuel1 0 = some i)
    (hconf : (env.fetch i).has_conflicts = true) :
    (run_release_proccess env fuel1 fuel2).1 = RunOutcome.failed ∧
      ∀ e ∈ (run_release_proccess env fuel1 fuel2).2,
        e.isApprove = false ∧ e.isMerge = false ∧ e.isCreateTag = false := by
  cases hgen : generate_new_tag (get_latest_tag env.tags)
      (count_commits_by_type env.api (get_latest_tag env.tags) devBranch) with
  | none =>
    unfold run_release_proccess
    simp only [hgen]
    simp
  | some t =>
    unfold run_release_proccess
    simp only [hgen, hprep, hconf, if_true]
    refine ⟨trivial, ?_⟩
    intro e he
    simp only [List.mem_singleton] at he
    subst he
    exact ⟨rfl, rfl, rfl⟩

/-- Witness for C8 at the concrete environment `envConflict`. -/
theorem C8_conflict_aborts_witness :
    (run_release_proccess envConflict 1 1).1 = RunOutcome.failed ∧
      ∀ e ∈ (run_release_proccess envConflict 1 1).2,
        e.isApprove = false ∧ e.isMerge = false ∧ e.isCreateTag = false :=
  C8_conflict_aborts envConflict 1 1 0 (by decide) (by decide)

/-- C9: whenever the classifier reports a positive `feat` count, its `fix`
count is at least 1 (a `feat:` title sets `fix := 1` and other titles only
increment it); consequently `generate_new_tag` on classifier output with a
feature present always takes the inner fix branch and assigns the patch
absolutely to the `fix` count. -/
theorem C9_feat_forces_fix (l : List (List Char)) (v : List Char)
    (M m p : Nat) (hv : parse_vtag v = some (M, m, p))
    (hf : 0 < (count_commits_core l).feat) :
    1 ≤ (count_commits_core l).fix ∧
      generate_new_tag v (count_commits_core l)
        = some (render_vtag M (m + (count_commits_core l).feat)
            (count_commits_core l).fix) := by
  unfold count_commits_core at hf ⊢
  have hfix : 1 ≤ (l.foldl classifyStep ⟨0, 0⟩).fix :=
    foldl_classify_fix_pos l ⟨0, 0⟩ (by intro h; simp at h) hf
  refine ⟨hfix, ?_⟩
  simp only [generate_new_tag, hv]
  rw [if_pos hf, if_pos (by omega : 0 < (l.foldl classifyStep ⟨0, 0⟩).fix)]

/-- Witness for C9 at a concrete commit list with a feature commit. -/
theorem C9_feat_forces_fix_witness :
    1 ≤ (count_commits_core ["feat: a".data]).fix ∧
      generate_new_tag "v1.2.3".data (count_commits_core ["feat: a".data])
        = some (render_vtag 1 (2 + (count_commits_core ["feat: a".data]).feat)
            (count_commits_core ["feat: a".data]).fix) :=
  C9_feat_forces_fix ["feat: a".data] "v1.2.3".data 1 2 3 (by decide)
    (by decide)

/-- C10: for every previous tag accepted by the parser and every
classification, the produced string is of the exact form
`v<digits>.<digits>.<digits>` and is parsed back by the same parser to its
components; the default tag `"v0.0.0"` used when the repository has no
tags is likewise accepted. -/
theorem C10_output_reparses (v : List Char) (M m p : Nat) (c : Counts)
    (hv : parse_vtag v = some (M, m, p)) :
    (∃ M2 m2 p2, generate_new_tag v c = some (render_vtag M2 m2 p2) ∧
        spec_full_vtag (render_vtag M2 m2 p2) = true ∧
        parse_vtag (render_vtag M2 m2 p2) = some (M2, m2, p2)) ∧
      parse_vtag (get_latest_tag []) = some (0, 0, 0) := by
  refine ⟨?_, by decide⟩
  simp only [generate_new_tag, hv]
  by_cases hf : c.feat > 0
  · rw [if_pos hf]
    exact ⟨M, m + c.feat, _, rfl, spec_full_render _ _ _, parse_render _ _ _⟩
  · rw [if_neg hf]
    by_cases hx : c.fix > 0
    · rw [if_pos hx]
      exact ⟨M, m, p + c.fix, rfl, spec_full_render _ _ _, parse_render _ _ _⟩
    · rw [if_neg hx]
      exact ⟨M, m, 1, rfl, spec_full_render _ _ _, parse_render _ _ _⟩

/-- Witness for C10 at the previous tag `v1.2.3` with `{feat: 0, fix: 4}`. -/
theorem C10_output_reparses_witness :
    (∃ M2 m2 p2,
        generate_new_tag "v1.2.3".data ⟨4, 0⟩ = some (render_vtag M2 m2 p2) ∧
          spec_full_vtag (render_vtag M2 m2 p2) = true ∧
          parse_vtag (render_vtag M2 m2 p2) = some (M2, m2, p2)) ∧
      parse_vtag (get_latest_tag []) = some (0, 0, 0) :=
  C10_output_reparses "v1.2.3".data 1 2 3 ⟨4, 0⟩ (by decide)

end AutoMR
